import Mathlib

/-!
Verification of the pronunciation backend (`src/index.js` and its earlier
iterations `src/unnamed/part_000` … `part_004`).

The JavaScript code is shallowly embedded: every pure computation becomes a
Lean function, stateful module-level caches become explicit state records
threaded through the handlers, and the event-loop interleaving relevant to
the single-flight claims becomes a small step machine over explicit event
lists.  External effects (the TTS service, the dictionary API, the hosted
dataset) are oracle parameters of an `Env` record; `null`/`undefined` JS
values are `Option.none`.
-/

/-- Model of JS `String.prototype.toLowerCase()` (structural, so that
concrete runs reduce in the kernel): lower-case every character. -/
def jsToLower (s : String) : String := String.mk (s.data.map Char.toLower)

/-- Model of JS `String.prototype.trim()`: drop whitespace characters from
both ends. -/
def jsTrim (s : String) : String :=
  String.mk (((s.data.dropWhile Char.isWhitespace).reverse.dropWhile
    Char.isWhitespace).reverse)

/-- Voice pair for one accent, from the `voiceMap` literal of `src/index.js`
(lines 220-225): `{ male: ..., female: ... }`. -/
structure VoicePair where
  male : String
  female : String
deriving Repr, DecidableEq

/-- The `voiceMap` object of `src/index.js` (lines 220-225): the four
supported accents and their Wavenet voice names; any other accent key is
`undefined` (here `none`). -/
def voiceMap : String → Option VoicePair := fun a =>
  if a = "en-US" then some ⟨"en-US-Wavenet-D", "en-US-Wavenet-F"⟩
  else if a = "en-GB" then some ⟨"en-GB-Wavenet-D", "en-GB-Wavenet-F"⟩
  else if a = "en-AU" then some ⟨"en-AU-Wavenet-B", "en-AU-Wavenet-C"⟩
  else if a = "en-IN" then some ⟨"en-IN-Wavenet-C", "en-IN-Wavenet-D"⟩
  else none

/-- The `accentToPhoneticMap` object of `src/index.js` (lines 228-233):
`en-US→US, en-GB→UK, en-AU→US, en-IN→UK`; other keys are `undefined`. -/
def accentToPhoneticMap : String → Option String := fun a =>
  if a = "en-US" then some "US"
  else if a = "en-GB" then some "UK"
  else if a = "en-AU" then some "US"
  else if a = "en-IN" then some "UK"
  else none

/-- One processed entry of the bulk phonetic table, as built by the load loop
of `src/index.js` (lines 77-83): `{US: us_ipa || null, UK: uk_ipa || null,
examples: (examples || []).slice(0, 3)}`. -/
structure PhonEntry where
  us : Option String
  uk : Option String
  exs : List String
deriving Repr, DecidableEq

/-- Result of `getPhoneticFromJSON` in `src/index.js`:
`{ phonetic: string|null, examples: [...] }`. -/
structure PhonResult where
  phonetic : Option String
  exs : List String
deriving Repr, DecidableEq

/-- JS property access `wordData[accentKey]` on a processed entry holding only
the keys `US` and `UK`: any other key reads `undefined` (`none`). -/
def entryRegion (e : PhonEntry) (key : String) : Option String :=
  if key = "US" then e.us else if key = "UK" then e.uk else none

/-- State owned by the phonetic resolver of `src/index.js`: the lazily loaded
`phoneticTranscriptions` table (`null` before a successful load) and the
`phoneticCache` NodeCache keyed by `word_accent` (expiry not modelled; all
claims are within one TTL window). Tables are association lists. -/
structure PhoneticState where
  table : Option (List (String × PhonEntry))
  memo : List (String × PhonResult)
deriving Repr, DecidableEq

/-- The `getPhoneticFromJSON` function of `src/index.js` (lines 265-297):
normalise the word, consult `phoneticCache`, then (if the bulk table is
loaded) look the word up and read the regional form
`wordData[accentKey] || null` with `accentKey = accentToPhoneticMap[accent]
|| "US"`, caching the result. Returns the result and the updated state. -/
def getPhoneticFromJSON (word accent : String) (st : PhoneticState) :
    PhonResult × PhoneticState :=
  let normalizedWord := jsToLower word
  let ck := normalizedWord ++ "_" ++ accent
  match st.memo.lookup ck with
  | some r => (r, st)
  | none =>
    match st.table with
    | none => (⟨none, []⟩, st)
    | some tbl =>
      let accentKey := (accentToPhoneticMap accent).getD "US"
      let result : PhonResult :=
        match tbl.lookup normalizedWord with
        | some wd => ⟨entryRegion wd accentKey, wd.exs⟩
        | none => ⟨none, []⟩
      (result, { st with memo := (ck, result) :: st.memo })

/-- One definition slot of a provider sense: `{definition?, example?}` as read
by `src/index.js` (`def.definition`, `def.example`; a missing or falsy field
is `none`). -/
structure DefnSlot where
  defn : Option String
  ex : Option String
deriving Repr, DecidableEq

/-- One sense of the provider payload: `{partOfSpeech, definitions}`
(`meaning.partOfSpeech`, `meaning.definitions || []` in `src/index.js`). -/
structure Sense where
  partOfSpeech : String
  definitions : List DefnSlot
deriving Repr, DecidableEq

/-- First element of the dictionary API payload as used by `src/index.js`
(`response.data[0]`): its `phonetic` and `meanings` fields. -/
structure WordEntry where
  phonetic : Option String
  meanings : List Sense
deriving Repr, DecidableEq

/-- Outcome of the `dictionaryApi.get` call in `src/index.js`: `err` is a
thrown error (timeout, network failure), `ok es` a response whose `data`
array has elements `es` (an empty or non-array payload is `ok []`, which the
code detects via `!response.data[0]`). -/
inductive ProviderOutcome where
  | err : ProviderOutcome
  | ok : List WordEntry → ProviderOutcome
deriving Repr, DecidableEq

/-- The comparator passed to `.sort` in `src/index.js` (lines 324-330):
`a.partOfSpeech === "adjective" ? -1 : b.partOfSpeech === "adjective" ? 1 : 0`. -/
def adjCmp (a b : Sense) : Int :=
  if a.partOfSpeech = "adjective" then -1
  else if b.partOfSpeech = "adjective" then 1
  else 0

/-- One insertion step of `Array.prototype.sort(adjCmp)` as Node (V8)
executes it on provider sense lists. `adjCmp` is inconsistent on pairs of
adjectives (it returns `-1` both ways), and ECMAScript then leaves the sort
order implementation-defined; V8's TimSort sorts short runs (a provider
sense list is far below the run threshold) by binary insertion, placing the
pivot at the position found by probing `adjCmp pivot probe < 0` (move left)
versus `≥ 0` (move right). Since `adjCmp x y < 0` holds for every `y`
exactly when `x` is adjective-tagged (`adjCmp_lt_univ` below), every probe
of that search takes the same branch: an adjective pivot lands at the front
of the processed prefix, any other pivot at its end. -/
def v8Insert (acc : List Sense) (x : Sense) : List Sense :=
  if x.partOfSpeech = "adjective" then x :: acc else acc ++ [x]

/-- Model of `[...wordData.meanings].sort(adjCmp)` in `src/index.js`
(line 324) as executed by Node/V8: each sense in turn is binary-inserted
into the processed prefix (`v8Insert`). The result groups the adjectives
first but reverses their relative order, and keeps the remaining senses in
their original relative order (`v8Sort_eq` below) — e.g.
`[noun, adj2, adj3]` sorts to `[adj3, adj2, noun]`. -/
def v8Sort (l : List Sense) : List Sense := l.foldl v8Insert []

/-- Example item pushed by the selection loop of `src/index.js`
(lines 356-361): `{text: def.example, partOfSpeech: meaning.partOfSpeech}`. -/
structure ExampleItem where
  text : String
  partOfSpeech : String
deriving Repr, DecidableEq

/-- Inner loop of `src/index.js` `getWordDetails` (lines 342-365): walk the
definition slots of one sense while `meanings.length < 3 || examples.length
< 3`, pushing a definition when `meanings.length < 3 && def.definition` and
an example when `examples.length < 3 && def.example`. -/
def scanDefs (pos : String) : List DefnSlot → List String → List ExampleItem →
    List String × List ExampleItem
  | [], ms, es => (ms, es)
  | d :: ds, ms, es =>
    if ms.length < 3 ∨ es.length < 3 then
      let ms' := if ms.length < 3 then
          (match d.defn with | some t => ms ++ [t] | none => ms) else ms
      let es' := if es.length < 3 then
          (match d.ex with | some t => es ++ [⟨t, pos⟩] | none => es) else es
      scanDefs pos ds ms' es'
    else (ms, es)

/-- Outer loop of `src/index.js` `getWordDetails` (lines 333-366): walk the
sorted senses while `meanings.length < 3 || examples.length < 3`. -/
def scanMeanings : List Sense → List String → List ExampleItem →
    List String × List ExampleItem
  | [], ms, es => (ms, es)
  | s :: rest, ms, es =>
    if ms.length < 3 ∨ es.length < 3 then
      let p := scanDefs s.partOfSpeech s.definitions ms es
      scanMeanings rest p.1 p.2
    else (ms, es)

/-- Return value of `getWordDetails` in `src/index.js`:
`{phonetic, meanings, examples}`. -/
structure WordDetails where
  phonetic : Option String
  meanings : List String
  exs : List ExampleItem
deriving Repr, DecidableEq

/-- The `getWordDetails` function of `src/index.js` (lines 300-385) as a
function of the provider outcome for the requested word: an error returns the
diagnostic result of the `catch` block; an empty payload returns the
"No details available" result; otherwise the senses are sorted with
`adjCmp` (as Node/V8 executes it, see `v8Sort`) and walked collecting up to
3 definitions and up to 3 examples. -/
def getWordDetails (o : ProviderOutcome) : WordDetails :=
  match o with
  | .err => ⟨none, ["Definition service unavailable."], []⟩
  | .ok [] => ⟨none, ["No details available"], []⟩
  | .ok (wordData :: _) =>
    let sorted := v8Sort wordData.meanings
    let p := scanMeanings sorted [] []
    ⟨wordData.phonetic,
     if p.1.length > 0 then p.1 else ["No details available"],
     p.2⟩

/-- One raw record of the hosted bulk phonetic dataset
(`rawData[word] = {us_ipa?, uk_ipa?, examples?}` in `src/index.js`
lines 77-83). -/
structure RawPhon where
  us_ipa : Option String
  uk_ipa : Option String
  exs : List String
deriving Repr, DecidableEq

/-- The pre-processing loop of `loadPhoneticTranscriptions` in `src/index.js`
(lines 74-83): `{US: us_ipa || null, UK: uk_ipa || null, examples:
(examples || []).slice(0, 3)}` for every word of the raw dataset. -/
def processRaw (l : List (String × RawPhon)) : List (String × PhonEntry) :=
  l.map (fun e => (e.1, ⟨e.2.us_ipa, e.2.uk_ipa, e.2.exs.take 3⟩))

/-- External collaborators of `src/index.js`, as deterministic oracles:
`tts` is `synthesizeSpeech` (input text to base64 audio, `none` = throw),
`dict` the dictionary API outcome per word, `phoneticFetch` the bulk dataset
fetch outcome (`none` = error or empty response), `etagFn` the npm `etag`
digest over its input string. -/
structure Env where
  tts : String → Option String
  dict : String → ProviderOutcome
  phoneticFetch : Option (List (String × RawPhon))
  etagFn : String → String

/-- Response body built by `src/index.js` (lines 503-514). -/
structure AudioMeta where
  format : String
  accent : String
  voice : String
deriving Repr, DecidableEq

/-- The `responseData` object of `src/index.js` (lines 503-514). -/
structure RespData where
  audioContent : String
  phonetic : String
  meanings : List String
  exs : List ExampleItem
  meta : AudioMeta
deriving Repr, DecidableEq

/-- One entry of the response cache of `src/index.js` (lines 520-524):
`{data, etag, timestamp}` (the timestamp is metadata never read back by the
code, so it is not modelled). -/
structure CacheEntry where
  data : RespData
  etagVal : String
deriving Repr, DecidableEq

/-- Module-level mutable state of `src/index.js`: the response cache, the
phonetic resolver state, and the memoised `phoneticLoadPromise` (`none` when
no promise exists; `some b` a promise already resolved with `b`, which the
code keeps until a 5-minute timer clears it). -/
structure ServerState where
  respCache : List (String × CacheEntry)
  phon : PhoneticState
  loadPromise : Option Bool
deriving Repr, DecidableEq

/-- Sequential model of `loadPhoneticTranscriptions` in `src/index.js`
(lines 52-107): an existing promise is returned without a new fetch;
otherwise the dataset is fetched (second component counts upstream fetches),
on success the processed table is stored, and the resolved promise stays
memoised. -/
def loadPhonetics (env : Env) (st : ServerState) : ServerState × Nat :=
  match st.loadPromise with
  | some _ => (st, 0)
  | none =>
    match env.phoneticFetch with
    | some raw =>
      ({ st with phon := { st.phon with table := some (processRaw raw) },
                 loadPromise := some true }, 1)
    | none => ({ st with loadPromise := some false }, 1)

/-- A `POST /get-pronunciation` request after body destructuring with
defaults (`src/index.js` line 423): `word` is the raw `rawWord` (`""` when
absent), plus the `If-None-Match` request header. -/
structure Req where
  word : String
  accent : String
  isMale : Bool
  inm : Option String
deriving Repr, DecidableEq

/-- Upstream invocations performed while serving one request: the input texts
sent to `synthesizeSpeech`, the words sent to the dictionary API, and the
number of bulk-dataset fetches. -/
structure Calls where
  ttsWords : List String
  dictWords : List String
  datasetFetches : Nat
deriving Repr, DecidableEq

/-- Observable outcome of one `POST /get-pronunciation` request in
`src/index.js`: `badRequest` = 400, `notModified` = 304 with empty body,
`okCached` = 200 from the response cache (ETag header, stored body),
`okFresh` = 200 on the fresh path (which additionally sets the
`Server-Timing` timing metadata), `serverError` = 500. -/
inductive HResult where
  | badRequest : String → HResult
  | notModified : HResult
  | okCached : String → RespData → HResult
  | okFresh : String → RespData → HResult
  | serverError : HResult
deriving Repr, DecidableEq

/-- The `getCacheKey` helper of `src/index.js` (lines 216-217). -/
def getCacheKey (word accent voice : String) : String :=
  jsToLower word ++ "_" ++ accent ++ "_" ++ voice

/-- The argument string passed to `etag(...)` in `src/index.js` line 517:
`word + accent + (isMale ? "m" : "f")` — built from the identity fields
only (no speed field exists in this version; the audio bytes are not part
of it). -/
def etagInputIdx (word accent : String) (isMale : Bool) : String :=
  word ++ accent ++ (if isMale then "m" else "f")

/-- The `POST /get-pronunciation` handler of `src/index.js` (lines 418-546)
as a function of the environment, the server state and the request,
returning the observable result, the new server state, and the upstream
calls made while serving this request. Follows the source order: presence
check on the raw word, trim+lowercase, accent validation, response-cache
lookup with conditional-GET check, then the fresh path (lazy dataset load,
`getPhoneticFromJSON`, parallel dictionary + TTS calls, merge, cache store). -/
def handle (env : Env) (st : ServerState) (req : Req) :
    HResult × ServerState × Calls :=
  if req.word = "" then (.badRequest "Word is required.", st, ⟨[], [], 0⟩)
  else
    let word := jsToLower (jsTrim req.word)
    match voiceMap req.accent with
    | none => (.badRequest "Invalid accent selected", st, ⟨[], [], 0⟩)
    | some vp =>
      let voiceName := if req.isMale then vp.male else vp.female
      let ck := getCacheKey word req.accent (if req.isMale then "male" else "female")
      match st.respCache.lookup ck with
      | some ce =>
        if req.inm = some ce.etagVal then (.notModified, st, ⟨[], [], 0⟩)
        else (.okCached ce.etagVal ce.data, st, ⟨[], [], 0⟩)
      | none =>
        let load := if st.phon.table.isNone then loadPhonetics env st else (st, 0)
        let pr := getPhoneticFromJSON word req.accent load.1.phon
        let st2 := { load.1 with phon := pr.2 }
        let phoneticData := pr.1
        let wordDetails := getWordDetails (env.dict word)
        match env.tts word with
        | none => (.serverError, st2, ⟨[word], [word], load.2⟩)
        | some audio =>
          let finalPhonetic := phoneticData.phonetic.orElse (fun _ => wordDetails.phonetic)
          let finalExamples := if phoneticData.exs.length > 0 then
              (phoneticData.exs.take 3).map (fun t => ExampleItem.mk t "")
            else wordDetails.exs.take 3
          let finalMeanings := wordDetails.meanings.take 3
          let responseData : RespData :=
            ⟨audio,
             finalPhonetic.getD "Phonetic transcription not available.",
             finalMeanings, finalExamples,
             ⟨"mp3", req.accent, voiceName⟩⟩
          let rEtag := env.etagFn (etagInputIdx word req.accent req.isMale)
          let st3 := { st2 with respCache := (ck, ⟨responseData, rEtag⟩) :: st2.respCache }
          (.okFresh rEtag responseData, st3, ⟨[word], [word], load.2⟩)

/-- Event-loop events affecting the promise-memoised bulk load of
`src/index.js` (lines 52-107): `call` is one synchronous execution of
`loadPhoneticTranscriptions` by a request finding `phoneticTranscriptions`
unset (the null-check, promise creation and start of the `axios.get` happen
in one synchronous segment, so `call` is atomic); `completeOk` /
`completeFail` resolve the in-flight fetch; `timer` is the 5-minute
`setTimeout` of the `finally` block clearing `phoneticLoadPromise`. -/
inductive LEvent where
  | call : LEvent
  | completeOk : LEvent
  | completeFail : LEvent
  | timer : LEvent
deriving Repr, DecidableEq

/-- Abstract state of the bulk loader: whether `phoneticLoadPromise` is set,
whether `phoneticTranscriptions` holds data, the number of upstream dataset
fetches started so far, and the number currently in flight. -/
structure LState where
  promiseActive : Bool
  dataLoaded : Bool
  fetches : Nat
  inFlight : Nat
deriving Repr, DecidableEq

/-- Initial loader state: no promise, no data, no fetch. -/
def lInit : LState := ⟨false, false, 0, 0⟩

/-- One event of the bulk-load machine. A `call` joins the existing promise
when one is set (or when the data is already loaded the route skips the call
altogether), and otherwise creates the promise and starts one fetch.
Completions only apply while a fetch is in flight; `completeOk` stores the
data but — exactly as in the source — does not clear the promise, which only
the `timer` event does. -/
def lStep (s : LState) : LEvent → LState
  | .call =>
    if s.dataLoaded then s
    else if s.promiseActive then s
    else { s with promiseActive := true, fetches := s.fetches + 1,
                  inFlight := s.inFlight + 1 }
  | .completeOk =>
    if s.inFlight = 0 then s
    else { s with dataLoaded := true, inFlight := s.inFlight - 1 }
  | .completeFail =>
    if s.inFlight = 0 then s
    else { s with inFlight := s.inFlight - 1 }
  | .timer => { s with promiseActive := false }

/-- Run of the bulk-load machine from the cold-start state. -/
def lRun (evs : List LEvent) : LState := evs.foldl lStep lInit

/-- Interleaving state of two concurrent executions of `fetchWordData` in
`src/unnamed/part_002` (lines 32-49) for the same uncached letter key:
`filled` is whether `wordDataCache` holds the key, `fetches` counts upstream
`axios.get` calls, and `pcA`/`pcB` are the callers' positions (0 = about to
run the synchronous segment that checks the cache and, on a miss, starts the
fetch; 1 = suspended at `await axios.get`; 2 = done). -/
structure ShardState where
  filled : Bool
  fetches : Nat
  pcA : Nat
  pcB : Nat
deriving Repr, DecidableEq

/-- Advance one caller of `fetchWordData` by one synchronous segment:
from 0, a cache hit finishes immediately, a miss starts the upstream fetch
and suspends; from 1, the response arrives and `wordDataCache.set` runs. -/
def shardStepOne (pc : Nat) (s : ShardState) : Nat × ShardState :=
  match pc with
  | 0 => if s.filled then (2, s) else (1, { s with fetches := s.fetches + 1 })
  | 1 => (2, { s with filled := true })
  | _ => (pc, s)

/-- Scheduler step: `true` advances caller A, `false` caller B. -/
def shardStep (s : ShardState) (who : Bool) : ShardState :=
  if who then
    let r := shardStepOne s.pcA s
    { r.2 with pcA := r.1 }
  else
    let r := shardStepOne s.pcB s
    { r.2 with pcB := r.1 }

/-- Run a schedule of the two-caller `fetchWordData` machine from the
uncached state. -/
def shardRun (sched : List Bool) : ShardState :=
  sched.foldl shardStep ⟨false, 0, 0, 0⟩

/-- State of the `src/unnamed/part_000` phonetic loader (lines 53-68): the
module-level `phoneticCache` (`null` initially) and the number of upstream
fetches performed. -/
structure P0State where
  phonCache : Option (List (String × String))
  fetches : Nat
deriving Repr, DecidableEq

/-- The `fetchPhoneticJson` function of `src/unnamed/part_000` (lines 57-68)
given the fetch outcome (`some tbl` = success, `none` = throw): a truthy
`phoneticCache` skips the fetch; on success the data is stored; the `catch`
block stores the empty object `{}` (here `some []`). -/
def fetchPhoneticJson (outcome : Option (List (String × String)))
    (s : P0State) : P0State :=
  match s.phonCache with
  | some _ => s
  | none =>
    match outcome with
    | some tbl => ⟨some tbl, s.fetches + 1⟩
    | none => ⟨some [], s.fetches + 1⟩

/-- One entry of a per-letter dictionary shard as read by
`src/unnamed/part_002` (`wordData.us_ipa`, `.uk_ipa`, `.meanings`,
`.examples`, `.synonyms`, `.antonyms`). -/
structure ShardEntry where
  us_ipa : Option String
  uk_ipa : Option String
  meanings : List String
  exs : List String
  synonyms : List String
  antonyms : List String
deriving Repr, DecidableEq

/-- The `phonetic` field of the `responseData` object built by
`src/unnamed/part_002` (lines 300-306): `wordData ? (accent === "en-GB" ?
wordData.uk_ipa : wordData.us_ipa) : null`. -/
def p2Phonetic (wordData : Option ShardEntry) (accent : String) : Option String :=
  match wordData with
  | none => none
  | some wd => if accent = "en-GB" then wd.uk_ipa else wd.us_ipa

/-- The `responseData` object of `src/unnamed/part_002` (lines 300-320),
given the (possibly absent) shard entry and the request parameters. -/
structure P2RespData where
  audioContent : String
  phonetic : Option String
  meanings : List String
  exs : List ExampleItem
  synonyms : List String
  antonyms : List String
  meta : AudioMeta
  speed : String
deriving Repr, DecidableEq

/-- Build the `responseData` of `src/unnamed/part_002` (lines 300-320). -/
def p2ResponseData (wordData : Option ShardEntry) (accent audio voiceName speed : String) :
    P2RespData :=
  ⟨audio,
   p2Phonetic wordData accent,
   (match wordData with | some wd => wd.meanings | none => []),
   (match wordData with
    | some wd => wd.exs.map (fun t => ExampleItem.mk t "")
    | none => []),
   (match wordData with | some wd => wd.synonyms | none => []),
   (match wordData with | some wd => wd.antonyms | none => []),
   ⟨"mp3", accent, voiceName⟩, speed⟩

/-- The argument string passed to `etag(...)` in `src/unnamed/part_002`
line 321: `word + accent + (isMale ? "m" : "f")` — the request's `speed`
field is in scope in that handler (and is part of the cache key) but is not
part of this expression. -/
def etagInputP2 (word accent : String) (isMale : Bool) (speed : String) : String :=
  word ++ accent ++ (if isMale then "m" else "f")

/-- The argument string passed to `etag(...)` in `src/unnamed/part_003`
line 257: `word + accent + (isMale ? "m" : "f") + speed`. -/
def etagInputP3 (word accent : String) (isMale : Bool) (speed : String) : String :=
  word ++ accent ++ (if isMale then "m" else "f") ++ speed

/-- Invariant of the bulk-load machine on timer-free runs: at most one fetch
ever starts, at most that many are in flight, the promise is set exactly
when the fetch has started, and data implies a completed fetch. -/
def LInv (s : LState) : Prop :=
  s.fetches ≤ 1 ∧ s.inFlight ≤ s.fetches ∧
  (s.promiseActive = true ↔ s.fetches = 1) ∧
  (s.dataLoaded = true → s.fetches = 1)

/-- Environment used by concrete witnesses: a deterministic synthesiser, a
failing dictionary API, a one-word bulk dataset, and the identity digest. -/
def envW : Env :=
  ⟨fun w => some ("AUDIO:" ++ w), fun _ => .err,
   some [("cat", ⟨some "kat", none, ["the cat sat"]⟩)], fun s => s⟩

/-- Concrete cached response used by witnesses. -/
def ceW : CacheEntry :=
  ⟨⟨"A", "ph", ["m1"], [], ⟨"mp3", "en-US", "en-US-Wavenet-D"⟩⟩, "etag1"⟩

/-- Server state holding `ceW` under the key of the witness request. -/
def stHit : ServerState := ⟨[("cat_en-US_male", ceW)], ⟨none, []⟩, none⟩

/-- Empty cold-start server state. -/
def stCold : ServerState := ⟨[], ⟨none, []⟩, none⟩

/-- Bulk-table entry used as a concrete input: a US form but no UK form. -/
def colorUSOnly : List (String × PhonEntry) :=
  [("color", ⟨some "ˈkʌlər", none, []⟩)]

/-- Bulk-table entry used as a concrete input: both regional forms. -/
def colorEntry : PhonEntry := ⟨some "ˈkʌlər", some "ˈkʌlə", []⟩

/-- Concrete bulk table with both regional forms for "color". -/
def colorTbl : List (String × PhonEntry) := [("color", colorEntry)]

/-- C3 counterexample: with the bulk dataset holding a US form for "color"
and no UK form, `getPhoneticFromJSON "color" "en-GB"` returns `null`, not
the US form — the code reads `wordData[accentKey] || null` and never falls
back to the other region, refuting the claimed US fallback. -/
theorem c3_counterexample_no_us_fallback :
    (getPhoneticFromJSON "color" "en-GB" ⟨some colorUSOnly, []⟩).1.phonetic = none ∧
    (colorUSOnly.lookup "color").map PhonEntry.us = some (some "ˈkʌlər") := by
  refine ⟨?_, by decide⟩
  decide

/-- C3 (amended): `getPhoneticFromJSON` selects the regional form given by
the fixed mapping `en-US→US, en-GB→UK, en-AU→US, en-IN→UK` — for a word
present in the loaded table the result is exactly that region's field of
the entry (so `en-US` is non-null whenever the US form is present), and
there is no cross-region fallback: `en-GB` yields the UK field even when it
is `null`. -/
theorem c3_amended_regional_selection (tbl : List (String × PhonEntry))
    (word : String) (e : PhonEntry)
    (h : tbl.lookup (jsToLower word) = some e) :
    (getPhoneticFromJSON word "en-US" ⟨some tbl, []⟩).1.phonetic = e.us ∧
    (getPhoneticFromJSON word "en-GB" ⟨some tbl, []⟩).1.phonetic = e.uk ∧
    (getPhoneticFromJSON word "en-AU" ⟨some tbl, []⟩).1.phonetic = e.us ∧
    (getPhoneticFromJSON word "en-IN" ⟨some tbl, []⟩).1.phonetic = e.uk ∧
    accentToPhoneticMap "en-US" = some "US" ∧
    accentToPhoneticMap "en-GB" = some "UK" ∧
    accentToPhoneticMap "en-AU" = some "US" ∧
    accentToPhoneticMap "en-IN" = some "UK" := by
  refine ⟨?_, ?_, ?_, ?_, rfl, rfl, rfl, rfl⟩ <;>
    simp [getPhoneticFromJSON, accentToPhoneticMap, entryRegion, h]

/-- C3 witness: the amended theorem evaluated on a concrete table holding
both regional forms of "color". -/
theorem c3_witness :
    (getPhoneticFromJSON "color" "en-US" ⟨some colorTbl, []⟩).1.phonetic = some "ˈkʌlər" ∧
    (getPhoneticFromJSON "color" "en-GB" ⟨some colorTbl, []⟩).1.phonetic = some "ˈkʌlə" := by
  have h := c3_amended_regional_selection colorTbl "color" colorEntry (by decide)
  exact ⟨h.1, h.2.1⟩

/-- C7: on every failure of the external definition provider — a thrown
error (timeout, network error) or an empty payload — `getWordDetails`
returns the well-formed value `{phonetic: null, meanings: [diagnostic],
examples: []}`; it is a total function (nothing is thrown or propagated)
and the diagnostic message is the single meaning entry. -/
theorem c7_fetch_failure_wellformed :
    getWordDetails .err =
      ⟨none, ["Definition service unavailable."], []⟩ ∧
    getWordDetails (.ok []) =
      ⟨none, ["No details available"], []⟩ ∧
    (getWordDetails .err).meanings.length = 1 ∧
    (getWordDetails (.ok [])).meanings.length = 1 ∧
    (getWordDetails .err).exs = [] ∧
    (getWordDetails (.ok [])).exs = [] := by
  exact ⟨rfl, rfl, rfl, rfl, rfl, rfl⟩

lemma adjCmp_lt_univ (x y : Sense) :
    adjCmp x y < 0 ↔ x.partOfSpeech = "adjective" := by
  unfold adjCmp
  by_cases hx : x.partOfSpeech = "adjective" <;>
    by_cases hy : y.partOfSpeech = "adjective" <;> simp [hx, hy]

lemma v8Sort_fold (l : List Sense) :
    ∀ (acc1 acc2 : List Sense),
    l.foldl v8Insert (acc1 ++ acc2) =
      ((l.filter fun s => s.partOfSpeech == "adjective").reverse ++ acc1)
        ++ (acc2 ++ l.filter fun s => !(s.partOfSpeech == "adjective")) := by
  induction l with
  | nil => intro a1 a2; simp
  | cons x xs ih =>
    intro a1 a2
    by_cases hx : x.partOfSpeech = "adjective"
    · have hstep : v8Insert (a1 ++ a2) x = (x :: a1) ++ a2 := by
        simp [v8Insert, hx]
      rw [List.foldl_cons, hstep, ih (x :: a1) a2]
      simp [List.filter_cons, hx]
    · have hstep : v8Insert (a1 ++ a2) x = a1 ++ (a2 ++ [x]) := by
        simp [v8Insert, hx]
      rw [List.foldl_cons, hstep, ih a1 (a2 ++ [x])]
      simp [List.filter_cons, hx]

/-- The V8 execution of `.sort(adjCmp)` groups adjective-tagged senses in
front of all others, reversing the adjectives' relative order and
preserving the relative order of the rest. -/
lemma v8Sort_eq (l : List Sense) :
    v8Sort l = (l.filter fun s => s.partOfSpeech == "adjective").reverse
      ++ l.filter fun s => !(s.partOfSpeech == "adjective") := by
  have h := v8Sort_fold l [] []
  simpa [v8Sort] using h

lemma mem_of_mem_v8Sort (s : Sense) (l : List Sense)
    (h : s ∈ v8Sort l) : s ∈ l := by
  rw [v8Sort_eq] at h
  rcases List.mem_append.1 h with h | h
  · exact List.mem_of_mem_filter (List.mem_reverse.1 h)
  · exact List.mem_of_mem_filter h

lemma scanDefs_len (pos : String) :
    ∀ (ds : List DefnSlot) (ms : List String) (es : List ExampleItem),
    ms.length ≤ 3 → es.length ≤ 3 →
    (scanDefs pos ds ms es).1.length ≤ 3 ∧ (scanDefs pos ds ms es).2.length ≤ 3 := by
  intro ds
  induction ds with
  | nil => intro ms es h1 h2; exact ⟨h1, h2⟩
  | cons d ds ih =>
    intro ms es h1 h2
    rw [scanDefs]
    split
    · apply ih
      · split
        · cases d.defn <;> simp <;> omega
        · exact h1
      · split
        · cases d.ex <;> simp <;> omega
        · exact h2
    · exact ⟨h1, h2⟩

lemma scanMeanings_len :
    ∀ (l : List Sense) (ms : List String) (es : List ExampleItem),
    ms.length ≤ 3 → es.length ≤ 3 →
    (scanMeanings l ms es).1.length ≤ 3 ∧ (scanMeanings l ms es).2.length ≤ 3 := by
  intro l
  induction l with
  | nil => intro ms es h1 h2; exact ⟨h1, h2⟩
  | cons s rest ih =>
    intro ms es h1 h2
    rw [scanMeanings]
    split
    · have h := scanDefs_len s.partOfSpeech s.definitions ms es h1 h2
      exact ih _ _ h.1 h.2
    · exact ⟨h1, h2⟩

lemma scanDefs_ex_src (pos : String) :
    ∀ (ds : List DefnSlot) (ms : List String) (es : List ExampleItem)
      (e : ExampleItem), e ∈ (scanDefs pos ds ms es).2 →
    e ∈ es ∨ ∃ d ∈ ds, d.ex = some e.text ∧ e.partOfSpeech = pos := by
  intro ds
  induction ds with
  | nil => intro ms es e he; exact Or.inl he
  | cons d ds ih =>
    intro ms es e he
    rw [scanDefs] at he
    split at he
    · rcases ih _ _ e he with h | ⟨d', hd', hex, hpos⟩
      · split at h
        · cases hex2 : d.ex with
          | none =>
            rw [hex2] at h
            exact Or.inl h
          | some t =>
            rw [hex2] at h
            rcases List.mem_append.1 h with h | h
            · exact Or.inl h
            · have he2 : e = ⟨t, pos⟩ := by simpa using h
              subst he2
              exact Or.inr ⟨d, List.mem_cons_self d ds, by simp [hex2]⟩
        · exact Or.inl h
      · exact Or.inr ⟨d', List.mem_cons_of_mem d hd', hex, hpos⟩
    · exact Or.inl he

lemma scanMeanings_ex_src :
    ∀ (l : List Sense) (ms : List String) (es : List ExampleItem)
      (e : ExampleItem), e ∈ (scanMeanings l ms es).2 →
    e ∈ es ∨ ∃ s ∈ l, ∃ d ∈ s.definitions,
      d.ex = some e.text ∧ e.partOfSpeech = s.partOfSpeech := by
  intro l
  induction l with
  | nil => intro ms es e he; exact Or.inl he
  | cons s rest ih =>
    intro ms es e he
    rw [scanMeanings] at he
    split at he
    · rcases ih _ _ e he with h | ⟨s', hs', hrest⟩
      · rcases scanDefs_ex_src s.partOfSpeech s.definitions ms es e h with
          h | ⟨d, hd, hex, hpos⟩
        · exact Or.inl h
        · exact Or.inr ⟨s, List.mem_cons_self s rest, d, hd, hex, hpos⟩
      · exact Or.inr ⟨s', List.mem_cons_of_mem s hs', hrest⟩
    · exact Or.inl he

lemma scanMeanings_stop (l : List Sense) (ms : List String)
    (es : List ExampleItem) (h1 : 3 ≤ ms.length) (h2 : 3 ≤ es.length) :
    scanMeanings l ms es = (ms, es) := by
  cases l with
  | nil => rfl
  | cons s rest =>
    rw [scanMeanings]
    have hc : ¬ (ms.length < 3 ∨ es.length < 3) := by omega
    rw [if_neg hc]

/-- C6 counterexample: with two adjective-tagged senses the V8 execution of
the `.sort(adjCmp)` call in `src/index.js` reverses the adjectives'
relative order — `[noun, adj2, adj3]` sorts to `[adj3, adj2, noun]` — so
the aggregator's returned meanings are `["d3", "d2", "d1"]` instead of the
`["d2", "d3", "d1"]` that the claimed order-preserving concatenation would
give, refuting relative-order preservation within the adjective group. -/
theorem c6_counterexample_adjective_order_reversed :
    v8Sort [⟨"noun", [⟨some "d1", none⟩]⟩,
            ⟨"adjective", [⟨some "d2", none⟩]⟩,
            ⟨"adjective", [⟨some "d3", none⟩]⟩] =
      [⟨"adjective", [⟨some "d3", none⟩]⟩,
       ⟨"adjective", [⟨some "d2", none⟩]⟩,
       ⟨"noun", [⟨some "d1", none⟩]⟩] ∧
    (getWordDetails (.ok [⟨none,
        [⟨"noun", [⟨some "d1", none⟩]⟩,
         ⟨"adjective", [⟨some "d2", none⟩]⟩,
         ⟨"adjective", [⟨some "d3", none⟩]⟩]⟩])).meanings =
      ["d3", "d2", "d1"] ∧
    (["d3", "d2", "d1"] : List String) ≠ ["d2", "d3", "d1"] := by
  refine ⟨by decide, by decide, by decide⟩

/-- C6 (amended): the selection of `getWordDetails` (src/index.js lines
322-367) scans adjective-tagged senses before all others, preserving the
relative order of the non-adjective senses but — because `adjCmp` is
inconsistent on adjective pairs and V8's binary insertion resolves it this
way — reversing the relative order within the adjective group; it collects
at most 3 definitions and independently at most 3 examples, takes an
example only from a definition slot that has one (with that slot's part of
speech), stops scanning as soon as both quotas are filled, and on the
senses `[{pos:"noun", defs:[d1]}, {pos:"adjective", defs:[d2]}]` (a single
adjective, so the reversal is invisible) the first returned meaning is
`d2`. -/
theorem c6_amended_adjective_priority_selection :
    (∀ l : List Sense, v8Sort l =
        (l.filter fun s => s.partOfSpeech == "adjective").reverse
          ++ l.filter (fun s => !(s.partOfSpeech == "adjective"))) ∧
    (∀ l : List Sense, (scanMeanings (v8Sort l) [] []).1.length ≤ 3 ∧
        (scanMeanings (v8Sort l) [] []).2.length ≤ 3) ∧
    (∀ (l : List Sense) (e : ExampleItem),
        e ∈ (scanMeanings (v8Sort l) [] []).2 →
        ∃ s ∈ l, ∃ d ∈ s.definitions,
          d.ex = some e.text ∧ e.partOfSpeech = s.partOfSpeech) ∧
    (∀ (rest : List Sense) (ms : List String) (es : List ExampleItem),
        3 ≤ ms.length → 3 ≤ es.length → scanMeanings rest ms es = (ms, es)) ∧
    (getWordDetails (.ok [⟨none,
        [⟨"noun", [⟨some "d1", none⟩]⟩,
         ⟨"adjective", [⟨some "d2", none⟩]⟩]⟩])).meanings.head? = some "d2" := by
  refine ⟨v8Sort_eq, ?_, ?_, scanMeanings_stop, by decide⟩
  · intro l
    exact scanMeanings_len (v8Sort l) [] [] (by simp) (by simp)
  · intro l e he
    rcases scanMeanings_ex_src (v8Sort l) [] [] e he with h | ⟨s, hs, rest⟩
    · simp at h
    · exact ⟨s, mem_of_mem_v8Sort s l hs, rest⟩

/-- C6 witness: the amended theorem instantiated on a concrete sense list
containing a noun sense, two adjective senses and an example-bearing slot,
discharging every hypothesis on concrete values. -/
theorem c6_amended_witness :
    v8Sort [⟨"noun", [⟨some "d1", none⟩]⟩,
            ⟨"adjective", [⟨some "d2", some "e2"⟩]⟩,
            ⟨"adjective", [⟨some "d3", none⟩]⟩] =
      [⟨"adjective", [⟨some "d3", none⟩]⟩,
       ⟨"adjective", [⟨some "d2", some "e2"⟩]⟩,
       ⟨"noun", [⟨some "d1", none⟩]⟩] ∧
    scanMeanings [⟨"noun", [⟨some "d1", none⟩]⟩] ["a", "b", "c"]
        [⟨"x", "p"⟩, ⟨"y", "p"⟩, ⟨"z", "p"⟩] =
      (["a", "b", "c"], [⟨"x", "p"⟩, ⟨"y", "p"⟩, ⟨"z", "p"⟩]) ∧
    (∃ s ∈ [⟨"noun", [⟨some "d1", none⟩]⟩,
            ⟨"adjective", [⟨some "d2", some "e2"⟩]⟩,
            ⟨"adjective", [⟨some "d3", none⟩]⟩],
       ∃ d ∈ Sense.definitions s, DefnSlot.ex d = some "e2" ∧
         ExampleItem.partOfSpeech ⟨"e2", "adjective"⟩ = s.partOfSpeech) := by
  refine ⟨?_, ?_, ?_⟩
  · rw [c6_amended_adjective_priority_selection.1]
    decide
  · exact c6_amended_adjective_priority_selection.2.2.2.1 _ _ _
      (by decide) (by decide)
  · exact c6_amended_adjective_priority_selection.2.2.1 _ ⟨"e2", "adjective"⟩
      (by decide)

/-- Characterisation of `handle` on a validated request that hits the
response cache: the conditional-GET comparison against the stored validator
decides between 304 and the stored document; no upstream service is touched
and the state is unchanged. -/
lemma handle_hit_eq (env : Env) (st : ServerState) (req : Req)
    (vp : VoicePair) (ce : CacheEntry)
    (hw : ¬ req.word = "")
    (hv : voiceMap req.accent = some vp)
    (hl : st.respCache.lookup (getCacheKey (jsToLower (jsTrim req.word))
        req.accent (if req.isMale then "male" else "female")) = some ce) :
    handle env st req =
      if req.inm = some ce.etagVal then (.notModified, st, ⟨[], [], 0⟩)
      else (.okCached ce.etagVal ce.data, st, ⟨[], [], 0⟩) := by
  simp only [handle, hw, if_false, hv, hl]

/-- Characterisation of `handle` on a validated request that misses the
response cache when synthesis succeeds: the explicit fresh-path outcome. -/
lemma handle_fresh_eq (env : Env) (st : ServerState) (req : Req)
    (vp : VoicePair) (audio : String)
    (hw : ¬ req.word = "")
    (hv : voiceMap req.accent = some vp)
    (hl : st.respCache.lookup (getCacheKey (jsToLower (jsTrim req.word))
        req.accent (if req.isMale then "male" else "female")) = none)
    (ht : env.tts (jsToLower (jsTrim req.word)) = some audio) :
    handle env st req =
      (let word := jsToLower (jsTrim req.word)
       let ck := getCacheKey word req.accent (if req.isMale then "male" else "female")
       let load := if st.phon.table.isNone then loadPhonetics env st else (st, 0)
       let pr := getPhoneticFromJSON word req.accent load.1.phon
       let st2 : ServerState := { load.1 with phon := pr.2 }
       let wordDetails := getWordDetails (env.dict word)
       let finalPhonetic := pr.1.phonetic.orElse (fun _ => wordDetails.phonetic)
       let finalExamples := if pr.1.exs.length > 0 then
           (pr.1.exs.take 3).map (fun t => ExampleItem.mk t "")
         else wordDetails.exs.take 3
       let responseData : RespData :=
         ⟨audio, finalPhonetic.getD "Phonetic transcription not available.",
          wordDetails.meanings.take 3, finalExamples,
          ⟨"mp3", req.accent, if req.isMale then vp.male else vp.female⟩⟩
       let rEtag := env.etagFn (etagInputIdx word req.accent req.isMale)
       (.okFresh rEtag responseData,
        { st2 with respCache := (ck, ⟨responseData, rEtag⟩) :: st2.respCache },
        ⟨[word], [word], load.2⟩)) := by
  simp only [handle, hw, if_false, hv, hl, ht]

/-- C9: when the response cache holds an entry for the request's key and the
request's `If-None-Match` header equals the stored validator, the handler
returns 304 with an empty body (and touches no upstream service); when the
entry exists but the validator does not match, it returns the stored
document with the stored validator in the `ETag` header. -/
theorem c9_conditional_get (env : Env) (st : ServerState) (req : Req)
    (vp : VoicePair) (ce : CacheEntry)
    (hw : ¬ req.word = "")
    (hv : voiceMap req.accent = some vp)
    (hl : st.respCache.lookup (getCacheKey (jsToLower (jsTrim req.word))
        req.accent (if req.isMale then "male" else "female")) = some ce) :
    (req.inm = some ce.etagVal →
      handle env st req = (.notModified, st, ⟨[], [], 0⟩)) ∧
    (req.inm ≠ some ce.etagVal →
      handle env st req = (.okCached ce.etagVal ce.data, st, ⟨[], [], 0⟩)) := by
  rw [handle_hit_eq env st req vp ce hw hv hl]
  constructor
  · intro h; rw [if_pos h]
  · intro h; rw [if_neg h]

/-- C9 witness: the theorem applied to a concrete cached state, once with a
matching `If-None-Match` header and once without one. -/
theorem c9_witness :
    handle envW stHit ⟨"cat", "en-US", true, some "etag1"⟩ =
      (.notModified, stHit, ⟨[], [], 0⟩) ∧
    handle envW stHit ⟨"cat", "en-US", true, none⟩ =
      (.okCached "etag1" ceW.data, stHit, ⟨[], [], 0⟩) := by
  constructor
  · exact (c9_conditional_get envW stHit ⟨"cat", "en-US", true, some "etag1"⟩
      ⟨"en-US-Wavenet-D", "en-US-Wavenet-F"⟩ ceW (by decide) (by decide)
      (by decide)).1 (by decide)
  · exact (c9_conditional_get envW stHit ⟨"cat", "en-US", true, none⟩
      ⟨"en-US-Wavenet-D", "en-US-Wavenet-F"⟩ ceW (by decide) (by decide)
      (by decide)).2 (by decide)

/-- C2: after a successful first request (cache miss, synthesis succeeds), a
second request with the identical `(word, accent, gender)` tuple and no
conditional header is answered from the response cache with the very same
`ResponseDocument` and validator (the fresh path additionally carries the
`Server-Timing` timing metadata, the cached path does not), and the second
call invokes neither the synthesis service, nor the definition provider,
nor a dataset fetch, and leaves the state unchanged. -/
theorem c2_second_call_served_from_cache (env : Env) (st : ServerState)
    (req : Req) (vp : VoicePair) (audio : String)
    (hw : ¬ req.word = "")
    (hv : voiceMap req.accent = some vp)
    (hl : st.respCache.lookup (getCacheKey (jsToLower (jsTrim req.word))
        req.accent (if req.isMale then "male" else "female")) = none)
    (ht : env.tts (jsToLower (jsTrim req.word)) = some audio)
    (hinm : req.inm = none) :
    ∃ e d,
      (handle env st req).1 = .okFresh e d ∧
      handle env (handle env st req).2.1 req =
        (.okCached e d, (handle env st req).2.1, ⟨[], [], 0⟩) := by
  rw [handle_fresh_eq env st req vp audio hw hv hl ht]
  refine ⟨_, _, rfl, ?_⟩
  simp only [handle, hw, if_false, hv]
  simp [List.lookup, hinm]

/-- C2 witness: the theorem evaluated on a concrete cold-start state and a
concrete request. -/
theorem c2_witness :
    ∃ e d,
      (handle envW stCold ⟨"cat", "en-US", true, none⟩).1 = .okFresh e d ∧
      handle envW (handle envW stCold ⟨"cat", "en-US", true, none⟩).2.1
          ⟨"cat", "en-US", true, none⟩ =
        (.okCached e d,
         (handle envW stCold ⟨"cat", "en-US", true, none⟩).2.1, ⟨[], [], 0⟩) :=
  c2_second_call_served_from_cache envW stCold ⟨"cat", "en-US", true, none⟩
    ⟨"en-US-Wavenet-D", "en-US-Wavenet-F"⟩ "AUDIO:cat"
    (by decide) (by decide) (by decide) (by decide) (by decide)

lemma orElse_getD_chain (a b : Option String) (c : String) :
    (a.orElse fun _ => b).getD c =
      (match a with
       | some p => p
       | none =>
         match b with
         | some q => q
         | none => c) := by
  cases a <;> cases b <;> rfl

/-- C4 (amended): on the fresh path of `src/index.js` the response's
phonetic field follows the precedence chain with no downgrade — the
dataset's value when non-null, else the Definition Aggregator's phonetic
when non-null, else exactly "Phonetic transcription not available.". (The
`src/unnamed/part_002` variant does not implement this chain; see the
counterexample.) -/
theorem c4_amended_phonetic_precedence (env : Env) (st : ServerState)
    (req : Req) (vp : VoicePair) (audio : String)
    (hw : ¬ req.word = "")
    (hv : voiceMap req.accent = some vp)
    (hl : st.respCache.lookup (getCacheKey (jsToLower (jsTrim req.word))
        req.accent (if req.isMale then "male" else "female")) = none)
    (ht : env.tts (jsToLower (jsTrim req.word)) = some audio) :
    ∃ e d,
      (handle env st req).1 = .okFresh e d ∧
      d.phonetic =
        (match (getPhoneticFromJSON (jsToLower (jsTrim req.word)) req.accent
            (if st.phon.table.isNone then loadPhonetics env st
             else (st, 0)).1.phon).1.phonetic with
         | some p => p
         | none =>
           match (getWordDetails (env.dict (jsToLower (jsTrim req.word)))).phonetic with
           | some q => q
           | none => "Phonetic transcription not available.") := by
  rw [handle_fresh_eq env st req vp audio hw hv hl ht]
  exact ⟨_, _, rfl, orElse_getD_chain _ _ _⟩

/-- C4 witness: the amended chain evaluated on a concrete request whose
dataset entry has a US form, so the response phonetic is that form. -/
theorem c4_witness :
    ∃ e d,
      (handle envW stCold ⟨"cat", "en-US", true, none⟩).1 = .okFresh e d ∧
      d.phonetic =
        (match (getPhoneticFromJSON (jsToLower (jsTrim "cat")) "en-US"
            (if stCold.phon.table.isNone then loadPhonetics envW stCold
             else (stCold, 0)).1.phon).1.phonetic with
         | some p => p
         | none =>
           match (getWordDetails (envW.dict (jsToLower (jsTrim "cat")))).phonetic with
           | some q => q
           | none => "Phonetic transcription not available.") :=
  c4_amended_phonetic_precedence envW stCold ⟨"cat", "en-US", true, none⟩
    ⟨"en-US-Wavenet-D", "en-US-Wavenet-F"⟩ "AUDIO:cat"
    (by decide) (by decide) (by decide) (by decide)

/-- C4 counterexample: the `src/unnamed/part_002` response builder, on a
successful request whose shard lookup found nothing, sets the phonetic
field to `null` — not to the Definition Aggregator's phonetic (that variant
never consults it) and not to the placeholder string the claimed chain
requires. -/
theorem c4_counterexample_p2_null_phonetic :
    (p2ResponseData none "en-US" "AUDIO" "en-US-Wavenet-D" "normal").phonetic
      = none ∧
    (none : Option String) ≠ some "Phonetic transcription not available." := by
  exact ⟨rfl, by decide⟩

/-- C8 (amended): the stored validator is a deterministic function of
identity fields only, but of `(word, accent, gender)` alone in
`src/index.js` and `src/unnamed/part_002` — two part_002 requests differing
only in `speed` receive the SAME validator input (refuting the claimed
distinctness), while only the `src/unnamed/part_003` variant appends
`speed`, making distinct speeds yield distinct validator inputs; on the
fresh path of `src/index.js` the emitted validator is exactly the digest of
the identity-field string, independent of the audio bytes and of every
other response field. -/
theorem c8_amended_validator_identity_fields :
    (∀ (w a : String) (g : Bool) (s s' : String),
        etagInputP2 w a g s = etagInputP2 w a g s') ∧
    (∀ (w a : String) (g : Bool) (s s' : String),
        s ≠ s' → etagInputP3 w a g s ≠ etagInputP3 w a g s') ∧
    (∀ (env : Env) (st : ServerState) (req : Req) (vp : VoicePair)
        (audio : String), ¬ req.word = "" → voiceMap req.accent = some vp →
        st.respCache.lookup (getCacheKey (jsToLower (jsTrim req.word))
          req.accent (if req.isMale then "male" else "female")) = none →
        env.tts (jsToLower (jsTrim req.word)) = some audio →
        ∃ d, (handle env st req).1 =
          .okFresh (env.etagFn (etagInputIdx (jsToLower (jsTrim req.word))
            req.accent req.isMale)) d) := by
  refine ⟨fun w a g s s' => rfl, ?_, ?_⟩
  · intro w a g s s' hne heq
    apply hne
    unfold etagInputP3 at heq
    have h2 := congrArg String.data heq
    simp [String.data_append] at h2
    exact String.ext h2
  · intro env st req vp audio hw hv hl ht
    rw [handle_fresh_eq env st req vp audio hw hv hl ht]
    exact ⟨_, rfl⟩

/-- C8 witness: the amended theorem applied at concrete inputs — distinct
speeds give distinct part_003 validator inputs, and the concrete fresh
request's validator is the digest of its identity-field string. -/
theorem c8_witness :
    etagInputP3 "cat" "en-US" true "slow" ≠ etagInputP3 "cat" "en-US" true "fast" ∧
    ∃ d, (handle envW stCold ⟨"cat", "en-US", true, none⟩).1 =
      .okFresh (envW.etagFn (etagInputIdx (jsToLower (jsTrim "cat")) "en-US" true)) d := by
  constructor
  · exact c8_amended_validator_identity_fields.2.1 "cat" "en-US" true
      "slow" "fast" (by decide)
  · exact c8_amended_validator_identity_fields.2.2 envW stCold
      ⟨"cat", "en-US", true, none⟩ ⟨"en-US-Wavenet-D", "en-US-Wavenet-F"⟩
      "AUDIO:cat" (by decide) (by decide) (by decide) (by decide)

/-- C8 counterexample: in `src/unnamed/part_002` (and identically in
`src/index.js`, which has no speed field at all) the string digested into
the validator is the same for two requests differing only in `speed`, so
the two requests receive the same validator, refuting the claimed
distinctness. -/
theorem c8_counterexample_speed_shares_validator :
    etagInputP2 "cat" "en-US" true "slow" = etagInputP2 "cat" "en-US" true "fast" ∧
    ("slow" : String) ≠ "fast" ∧
    etagInputIdx "cat" "en-US" true = etagInputP2 "cat" "en-US" true "slow" := by
  exact ⟨rfl, by decide, rfl⟩

/-- C10: a request whose `word` is a non-empty all-whitespace string is not
rejected with 400 — the presence check `if (!rawWord)` runs on the raw
untrimmed string, the word is trimmed to the empty string only afterwards,
and the request proceeds past validation to the cache lookup (under the
empty-word key) and to synthesis and the definition provider with empty
input text. -/
theorem c10_whitespace_word_passes_validation (env : Env) (st : ServerState)
    (w a : String) (m : Bool) (vp : VoicePair)
    (hw : ¬ w = "") (htrim : jsTrim w = "")
    (hv : voiceMap a = some vp)
    (hl : st.respCache.lookup
        (getCacheKey "" a (if m then "male" else "female")) = none) :
    (∀ msg, (handle env st ⟨w, a, m, none⟩).1 ≠ .badRequest msg) ∧
    (handle env st ⟨w, a, m, none⟩).2.2.ttsWords = [""] ∧
    (handle env st ⟨w, a, m, none⟩).2.2.dictWords = [""] := by
  have hkey : jsToLower (jsTrim w) = "" := by rw [htrim]; rfl
  simp only [handle, hw, if_false, hkey, hv, hl]
  cases henv : env.tts "" <;> simp [henv]

/-- C10 witness: the theorem applied to the all-whitespace word `" "` on a
cold-start state. -/
theorem c10_witness :
    (∀ msg, (handle envW stCold ⟨" ", "en-US", true, none⟩).1 ≠ .badRequest msg) ∧
    (handle envW stCold ⟨" ", "en-US", true, none⟩).2.2.ttsWords = [""] ∧
    (handle envW stCold ⟨" ", "en-US", true, none⟩).2.2.dictWords = [""] :=
  c10_whitespace_word_passes_validation envW stCold " " "en-US" true
    ⟨"en-US-Wavenet-D", "en-US-Wavenet-F"⟩
    (by decide) (by decide) (by decide) (by decide)

lemma lInv_init : LInv lInit := by
  refine ⟨by decide, by decide, by decide, by decide⟩

lemma lInv_step (s : LState) (e : LEvent) (h : LInv s) (he : e ≠ .timer) :
    LInv (lStep s e) := by
  obtain ⟨h1, h2, h3, h4⟩ := h
  cases e with
  | timer => exact absurd rfl he
  | call =>
    simp only [lStep]
    split
    · exact ⟨h1, h2, h3, h4⟩
    · split
      · exact ⟨h1, h2, h3, h4⟩
      · rename_i hdl hpa
        have hf0 : s.fetches = 0 := by
          rcases Nat.eq_or_lt_of_le h1 with h | h
          · exact absurd (h3.2 h) hpa
          · omega
        refine ⟨by simp [hf0], by simp [hf0]; omega, by simp [hf0], ?_⟩
        intro hdl2
        simp at hdl
        simp [hdl] at hdl2
  | completeOk =>
    simp only [lStep]
    split
    · exact ⟨h1, h2, h3, h4⟩
    · rename_i hif
      refine ⟨h1, by simp; omega, by simpa using h3, fun _ => by simp; omega⟩
  | completeFail =>
    simp only [lStep]
    split
    · exact ⟨h1, h2, h3, h4⟩
    · exact ⟨h1, by simp; omega, by simpa using h3, by simpa using h4⟩

lemma lStep_call_fetches (s : LState) (h : LInv s) :
    (lStep s .call).fetches = 1 := by
  obtain ⟨h1, h2, h3, h4⟩ := h
  simp only [lStep]
  split
  · rename_i hdl; exact h4 hdl
  · split
    · rename_i hpa; exact h3.1 hpa
    · rename_i hdl hpa
      have hf0 : s.fetches = 0 := by
        rcases Nat.eq_or_lt_of_le h1 with h | h
        · exact absurd (h3.2 h) hpa
        · omega
      simp [hf0]

lemma lStep_fetches_mono (s : LState) (e : LEvent) :
    s.fetches ≤ (lStep s e).fetches := by
  cases e <;> simp only [lStep] <;> first
    | (split <;> try split) <;> simp <;> omega
    | simp

lemma lfold_fetches_mono :
    ∀ (evs : List LEvent) (s : LState),
    s.fetches ≤ (evs.foldl lStep s).fetches := by
  intro evs
  induction evs with
  | nil => intro s; exact Nat.le_refl _
  | cons e rest ih =>
    intro s
    exact Nat.le_trans (lStep_fetches_mono s e) (ih (lStep s e))

lemma lfold_inv :
    ∀ (evs : List LEvent) (s : LState), LInv s →
    (∀ e ∈ evs, e ≠ LEvent.timer) → LInv (evs.foldl lStep s) := by
  intro evs
  induction evs with
  | nil => intro s h _; exact h
  | cons e rest ih =>
    intro s h hnt
    exact ih (lStep s e) (lInv_step s e h (hnt e (List.mem_cons_self e rest)))
      (fun x hx => hnt x (List.mem_cons_of_mem e hx))

lemma lfold_call_fetches :
    ∀ (evs : List LEvent) (s : LState), LInv s →
    (∀ e ∈ evs, e ≠ LEvent.timer) → LEvent.call ∈ evs →
    (evs.foldl lStep s).fetches = 1 := by
  intro evs
  induction evs with
  | nil => intro s _ _ hc; simp at hc
  | cons e rest ih =>
    intro s hinv hnt hc
    rcases List.mem_cons.1 hc with he | hcr
    · subst he
      have h1 : (lStep s .call).fetches = 1 := lStep_call_fetches s hinv
      have hinv2 : LInv (lStep s .call) :=
        lInv_step s .call hinv (by simp)
      have hle : (rest.foldl lStep (lStep s .call)).fetches ≤ 1 :=
        (lfold_inv rest _ hinv2
          (fun x hx => hnt x (List.mem_cons_of_mem _ hx))).1
      have hge := lfold_fetches_mono rest (lStep s .call)
      simp only [List.foldl_cons]
      omega
    · exact ih (lStep s e)
        (lInv_step s e hinv (hnt e (List.mem_cons_self e rest)))
        (fun x hx => hnt x (List.mem_cons_of_mem e hx)) hcr

/-- C1 (amended): the bulk phonetic dataset load of `src/index.js` is
single-flight — for every timer-free interleaving of route calls and load
completions starting uncached, if at least one call occurs the upstream
dataset fetch is started exactly once, and at no point is more than one
load in flight. (The per-letter shard fetch of `src/unnamed/part_002` does
NOT have this property; see the counterexample.) -/
theorem c1_amended_bulk_single_flight (evs : List LEvent)
    (hT : LEvent.timer ∉ evs) (hC : LEvent.call ∈ evs) :
    (lRun evs).fetches = 1 ∧ (lRun evs).inFlight ≤ 1 := by
  have hnt : ∀ e ∈ evs, e ≠ LEvent.timer := fun e he heq => hT (heq ▸ he)
  have hinv := lfold_inv evs lInit lInv_init hnt
  have hf := lfold_call_fetches evs lInit lInv_init hnt hC
  refine ⟨hf, ?_⟩
  show (evs.foldl lStep lInit).inFlight ≤ 1
  have h2 := hinv.2.1
  have h1 := hinv.1
  omega

/-- C1 witness: three concurrent calls around one completion — one fetch,
never two in flight. -/
theorem c1_witness :
    (lRun [.call, .call, .completeOk, .call]).fetches = 1 ∧
    (lRun [.call, .call, .completeOk, .call]).inFlight ≤ 1 :=
  c1_amended_bulk_single_flight [.call, .call, .completeOk, .call]
    (by decide) (by decide)

/-- C1 counterexample: for the per-letter shard fetch of
`src/unnamed/part_002` (`fetchWordData`), the schedule in which both
concurrent callers run their cache-miss check before either response
arrives makes the upstream fetch fire twice for the same key — two loads
for the same key are simultaneously in flight, refuting the claim that
every dataset key (including the per-letter shards) is loaded exactly once
under concurrency. -/
theorem c1_counterexample_shard_duplicate_fetch :
    (shardRun [true, false, true, false]).fetches = 2 ∧
    (shardRun [true, false]).fetches = 2 ∧
    (shardRun [true, false, true, false]).pcA = 2 ∧
    (shardRun [true, false, true, false]).pcB = 2 := by
  refine ⟨by decide, by decide, by decide, by decide⟩

/-- C5 counterexample: in `src/unnamed/part_000` a failed bulk fetch stores
the empty object in `phoneticCache` — a cached negative result — and the
next access performs no fresh upstream fetch (the count stays at 1),
refuting the claim that no negative result is cached and that the key is
eligible for a fresh fetch on the next access. -/
theorem c5_counterexample_negative_result_cached :
    (fetchPhoneticJson none ⟨none, 0⟩).phonCache = some [] ∧
    (fetchPhoneticJson none (fetchPhoneticJson none ⟨none, 0⟩)).fetches = 1 := by
  exact ⟨rfl, rfl⟩

/-- C5 (amended): in `src/index.js` a failed load stores no dataset data
(the key stays a data miss) and the failure outcome is what waiters
receive, but the in-flight marker (`phoneticLoadPromise`) is NOT cleared at
completion — it survives until the 5-minute timer — so an access after the
failure and before the timer reuses the failed promise without a fresh
fetch, and only after the timer clears the marker does the next access
start a fresh upstream fetch; the `src/unnamed/part_000` variant moreover
caches the empty object permanently on failure. -/
theorem c5_amended_failure_retry_window :
    (lRun [.call, .completeFail]).dataLoaded = false ∧
    (lRun [.call, .completeFail]).promiseActive = true ∧
    (lRun [.call, .completeFail, .call]).fetches = 1 ∧
    (lRun [.call, .completeFail, .timer, .call]).fetches = 2 ∧
    (fetchPhoneticJson (some [("color", "k")]) (fetchPhoneticJson none ⟨none, 0⟩))
      = fetchPhoneticJson none ⟨none, 0⟩ := by
  refine ⟨rfl, rfl, rfl, rfl, rfl⟩
